import Mathlib

/-!
Verification of the post4 Forth interpreter core (`src/post4.c`).

The development shallowly embeds the parts of `post4.c` that the claims
refer to:

* the numeric literal parser `p4StrNum` with its helpers `p4Base36` and
  `p4CharLiteral` (post4.c:302-416), over byte lists;
* the data-space allocator and dictionary facet (`p4Allot`,
  `p4WordCreate`, `_rm_marker`, `p4Exception`; post4.c:1073-1357,
  1841-1854), where only byte addresses, sizes and flag bits matter;
* the inner-interpreter machine (stacks, threaded dispatch and the
  primitives `_enter`, `_exit`, `_lit`, `_create`, `_does`, `_do_does`,
  `_data_field`, `_colon`/`_noname`/`_semicolon`, `_add`/`_sub`/`_mul`,
  `>R`/`R>`; post4.c:1667-1928, 2123-2161), where stacks are modelled
  exactly as in C: a cell array indexed by an integer top-of-stack
  index, so that an unchecked pop can drive the depth below zero just
  as the C code can;
* the REPL landing-pad recovery switch (post4.c:1563-1605).

Machine integers: `P4_Cell` is a 64-bit union; stack depths and sizes
are modelled as `Int` (they are pointer differences in C), byte values
as `Nat < 256`, and the `(char)`-truncating depth packing of `_do_colon`
is modelled bit-exactly for an LP64 platform with signed `char`.
-/

namespace Post4

/-! ### Byte classification helpers (ctype.h, ASCII) -/

/-- C `toupper` on ASCII bytes. -/
def c_toupper (c : Nat) : Nat := if 97 ≤ c ∧ c ≤ 122 then c - 32 else c

/-- C `tolower` on ASCII bytes. -/
def c_tolower (c : Nat) : Nat := if 65 ≤ c ∧ c ≤ 90 then c + 32 else c

/-- C `isdigit` on ASCII bytes. -/
def c_isdigit (c : Nat) : Prop := 48 ≤ c ∧ c ≤ 57

instance (c : Nat) : Decidable (c_isdigit c) := by unfold c_isdigit; infer_instance

/-- C `isspace` on ASCII bytes (space and the five control whitespace bytes). -/
def c_isspace (c : Nat) : Bool := decide (c = 32 ∨ (9 ≤ c ∧ c ≤ 13))

/-- C `iscntrl` on ASCII bytes. -/
def c_iscntrl (c : Nat) : Bool := decide (c < 32 ∨ c = 127)

/-! ### Numeric literal parser (post4.c:302-416) -/

/-- `p4CharLiteral` (post4.c:302-320): translate a backslash-escaped
character, identity otherwise. -/
def p4CharLiteral (ch : Nat) : Nat :=
  if ch = 97 then 7        -- a: bell
  else if ch = 98 then 8   -- b: backspace
  else if ch = 101 then 27 -- e: escape
  else if ch = 102 then 12 -- f: formfeed
  else if ch = 110 then 10 -- n: linefeed
  else if ch = 114 then 13 -- r: carriage-return
  else if ch = 115 then 32 -- s: space
  else if ch = 116 then 9  -- t: tab
  else if ch = 118 then 11 -- v: vertical tab
  else if ch = 122 then 0  -- z: nul
  else if ch = 48 then 0   -- 0: nul
  else if ch = 63 then 127 -- ?: delete
  else ch

/-- `p4Base36` (post4.c:322-333): map `0-9`, `A-Z`, `a-z` to 0..35,
anything else to 127. -/
def p4Base36 (digit : Nat) : Nat :=
  if 48 ≤ digit ∧ digit ≤ 57 then digit - 48
  else
    let d := c_toupper digit
    if 65 ≤ d ∧ d ≤ 90 then d - 65 + 10 else 127

/-- Result of `p4StrNum`.  `int v n` is the integer path: out-cell `v`,
`is_float = 0`, return value (bytes consumed) `n`.  `flt` is the
`is_float = 1` path, whose value and consumed count come from the host
`strtod` (external; no claim exercises it).  `sigfpe` is the
`raise(SIGFPE)` on `.`/`E` in a base other than 10. -/
inductive StrNumResult where
  | int (value : Int) (consumed : Nat)
  | flt
  | sigfpe
deriving DecidableEq, Repr

/-- Two's-complement 64-bit wrap: the value a 64-bit `P4_Cell` holds
after an arithmetic step, read back through the signed member `n`.
`18446744073709551616 = 2^64`, `9223372036854775808 = 2^63`. -/
def wrap64 (x : Int) : Int :=
  let r := x % 18446744073709551616
  if r < 9223372036854775808 then r else r - 18446744073709551616

/-- The digit loop of `p4StrNum` (post4.c:389-415), including the final
sign application and return of the consumed count.  `offset` tracks the
index of the head of the remaining byte list inside the original slice.
The accumulation `num.n = num.n * base + digit` happens in a 64-bit
cell (`base` is `P4_Uint`, so the arithmetic is unsigned modulo 2^64
and the store back into the signed `n` reinterprets the pattern), and
so does the final negation: both are modelled with `wrap64`. -/
def strNumDigits (base : Nat) (negate : Bool) :
    List Nat → Int → Nat → StrNumResult
  | [], num, offset => .int (if negate then wrap64 (-num) else num) offset
  | ch :: rest, num, offset =>
    let digit := p4Base36 ch
    if base ≤ digit then
      if ch = 46 ∨ c_toupper ch = 69 then       -- '.' or 'E'/'e'
        if base ≠ 10 then .sigfpe else .flt
      else
        .int (if negate then wrap64 (-num) else num) offset
    else
      strNumDigits base negate rest (wrap64 (num * (base : Int) + (digit : Int))) (offset + 1)

/-- `p4StrNum` (post4.c:335-416) over a byte slice.  The `base`
argument is the interpreter's current radix (`ctx->radix`). -/
def p4StrNum (str : List Nat) (base : Nat) : StrNumResult :=
  match str with
  | [] => .int 0 0
  | c0 :: _ =>
    if c0 = 39 then                                   -- '\'' character literals
      if str.length = 3 ∧ str.getD 2 0 = 39 then
        .int (str.getD 1 0) 3
      else if str.length = 4 ∧ str.getD 1 0 = 92 ∧ str.getD 3 0 = 39 then
        .int (p4CharLiteral (str.getD 2 0)) 4
      else
        .int 0 0                                      -- nothing parsed
    else
      let bo : Nat × Nat :=
        if c0 = 36 then (16, 1)                       -- '$' hex
        else if c0 = 35 then (10, 1)                  -- '#' decimal
        else if c0 = 37 then (2, 1)                   -- '%' binary
        else if c0 = 48 then                          -- '0': 0x hex or octal
          if 2 < str.length ∧ c_tolower (str.getD 1 0) = 120 then (16, 2)
          else if 1 < str.length ∧ (c_isdigit (str.getD 1 0) ∨ str.getD 1 0 = 45) then (8, 1)
          else (base, 0)
        else (base, 0)
      let no : Bool × Nat :=
        if bo.2 < str.length ∧ str.getD bo.2 0 = 45 then (true, bo.2 + 1)
        else (false, bo.2)
      strNumDigits bo.1 no.1 (str.drop no.2) 0 no.2

/-- Action taken by the REPL number branch (post4.c:1616-1643) for a
token that was not found in the dictionary.  The float-path actions
carry no data because the float value and its consumed count come from
the host `strtod`, which no claim exercises. -/
inductive NumberAction where
  | undefined
  | compileLit (value : Int)
  | pushData (value : Int)
  | floatPath
  | sigfpeRaised
deriving DecidableEq, Repr

/-- The REPL's handling of a token not found in the dictionary
(post4.c:1617-1643): try `p4StrNum`; `consumed ≠ length` raises
*undefined* (-13); otherwise compile a `LIT` literal in compile state
or push the value in interpret state. -/
def replNumberBranch (str : List Nat) (radix : Nat) (compiling : Bool) :
    NumberAction :=
  match p4StrNum str radix with
  | .int v consumed =>
    if consumed ≠ str.length then .undefined
    else if compiling then .compileLit v
    else .pushData v
  | .flt => .floatPath
  | .sigfpe => .sigfpeRaised

/-! ### Claims C8 and C9: the numeric literal parser -/

/-- The digit table of spec section 4.7, written from the spec's words:
`'0'..'9','A'..'Z','a'..'z'` map to 0..35, anything else to 127. -/
def specBase36 (c : Nat) : Nat :=
  if 48 ≤ c ∧ c ≤ 57 then c - 48
  else if 65 ≤ c ∧ c ≤ 90 then c - 65 + 10
  else if 97 ≤ c ∧ c ≤ 122 then c - 97 + 10
  else 127

/-- Value of a digit string in a given base, in the accumulator form the
source loop uses (`num = num * base + digit`, each step wrapping in the
64-bit cell exactly as the program's does). -/
def digitsVal (base : Nat) : List Nat → Int → Int
  | [], acc => acc
  | c :: r, acc => digitsVal base r (wrap64 (acc * (base : Int) + (p4Base36 c : Int)))

/-- When every byte is a valid digit of the base, the digit loop consumes
the whole list and yields the accumulated (64-bit wrapped) value,
negated in the cell under `negate`. -/
theorem strNumDigits_valid (base : Nat) (negate : Bool) :
    ∀ (bytes : List Nat) (acc : Int) (off : Nat),
      (∀ c ∈ bytes, p4Base36 c < base) →
      strNumDigits base negate bytes acc off
        = .int (if negate then wrap64 (-(digitsVal base bytes acc))
                else digitsVal base bytes acc)
            (off + bytes.length)
  | [], acc, off, _ => by simp [strNumDigits, digitsVal]
  | ch :: rest, acc, off, h => by
    have hch : p4Base36 ch < base := h ch (by simp)
    have hrest : ∀ c ∈ rest, p4Base36 c < base := fun c hc => h c (by simp [hc])
    simp only [strNumDigits, digitsVal]
    rw [if_neg (by omega)]
    rw [strNumDigits_valid base negate rest _ (off + 1) hrest]
    congr 1
    simp
    omega

/-- Claim C9: each of the one-byte slices `"$"`, `"#"`, `"%"`, `"-"`
parses as the integer 0 with the whole slice consumed and `is_float`
false, for every current radix; consequently the REPL number branch
never raises *undefined* for them: it pushes 0 when interpreting and
compiles the literal 0 when compiling. -/
theorem claim_C9 : ∀ (r : Nat) (compiling : Bool),
    (p4StrNum [36] r = .int 0 1 ∧ p4StrNum [35] r = .int 0 1
      ∧ p4StrNum [37] r = .int 0 1 ∧ p4StrNum [45] r = .int 0 1)
  ∧ (replNumberBranch [36] r compiling ≠ .undefined
      ∧ replNumberBranch [35] r compiling ≠ .undefined
      ∧ replNumberBranch [37] r compiling ≠ .undefined
      ∧ replNumberBranch [45] r compiling ≠ .undefined)
  ∧ (replNumberBranch [36] r compiling
        = (if compiling then .compileLit 0 else .pushData 0)
      ∧ replNumberBranch [35] r compiling
        = (if compiling then .compileLit 0 else .pushData 0)
      ∧ replNumberBranch [37] r compiling
        = (if compiling then .compileLit 0 else .pushData 0)
      ∧ replNumberBranch [45] r compiling
        = (if compiling then .compileLit 0 else .pushData 0)) := by
  intro r compiling
  have h36 : p4StrNum [36] r = .int 0 1 := by simp [p4StrNum, strNumDigits, wrap64]
  have h35 : p4StrNum [35] r = .int 0 1 := by simp [p4StrNum, strNumDigits, wrap64]
  have h37 : p4StrNum [37] r = .int 0 1 := by simp [p4StrNum, strNumDigits, wrap64]
  have h45 : p4StrNum [45] r = .int 0 1 := by simp [p4StrNum, strNumDigits, wrap64]
  refine ⟨⟨h36, h35, h37, h45⟩, ⟨?_, ?_, ?_, ?_⟩, ?_, ?_, ?_, ?_⟩ <;>
    simp [replNumberBranch, h36, h35, h37, h45] <;> cases compiling <;> simp

/-- Claim C8 counterexample: the radix for a slice beginning `0x` is NOT
selected independently of the current radix argument.  The source
requires `2 < length` for the `0x` prefix, so the two-byte slice `"0x"`
keeps the caller's radix: with radix 34 the byte `x` is digit 33 and the
whole slice parses as 33, while with radix 16 only one byte is consumed. -/
theorem claim_C8_counterexample :
    p4StrNum [48, 120] 34 = .int 33 2 ∧ p4StrNum [48, 120] 16 = .int 0 1 := by
  decide

/-- Unfolding of `p4StrNum` on a `$`-prefixed slice: base 16 is selected
and only the optional leading `-` remains to be examined. -/
theorem p4StrNum_dollar (rest : List Nat) (r : Nat) :
    p4StrNum (36 :: rest) r =
      strNumDigits 16
        (if 1 < (36 :: rest).length ∧ (36 :: rest).getD 1 0 = 45 then
          ((true, 2) : Bool × Nat) else (false, 1)).1
        ((36 :: rest).drop
          (if 1 < (36 :: rest).length ∧ (36 :: rest).getD 1 0 = 45 then
            ((true, 2) : Bool × Nat) else (false, 1)).2)
        0
        (if 1 < (36 :: rest).length ∧ (36 :: rest).getD 1 0 = 45 then
          ((true, 2) : Bool × Nat) else (false, 1)).2 := rfl

set_option maxRecDepth 8192 in
/-- Claim C8 as amended: the `$`/`#`/`%` prefixes select radix 16/10/2
independently of the radix argument; `0x`/`0X` selects 16 only when the
slice is at least 3 bytes long; `0` followed by a digit or `-` selects 8;
digit bytes are mapped by `p4Base36` per the spec table and accumulate
in the 64-bit cell (wrapping modulo 2^64 beyond 16 hex digits); an
optional single `-` right after the prefix negates in the cell; a slice
of valid digits consumes every byte, and the REPL number branch raises
*undefined* exactly when the consumed count differs from the slice
length. -/
theorem claim_C8_amended :
    (∀ c : Nat, c < 256 → p4Base36 c = specBase36 c)
  ∧ (∀ (rest : List Nat) (r1 r2 : Nat),
        p4StrNum (36 :: rest) r1 = p4StrNum (36 :: rest) r2
      ∧ p4StrNum (35 :: rest) r1 = p4StrNum (35 :: rest) r2
      ∧ p4StrNum (37 :: rest) r1 = p4StrNum (37 :: rest) r2)
  ∧ (∀ (s : List Nat) (r1 r2 : Nat), 3 ≤ s.length → s.getD 0 0 = 48 →
        c_tolower (s.getD 1 0) = 120 → p4StrNum s r1 = p4StrNum s r2)
  ∧ (∀ (s : List Nat) (r1 r2 : Nat), 2 ≤ s.length → s.getD 0 0 = 48 →
        (c_isdigit (s.getD 1 0) ∨ s.getD 1 0 = 45) → p4StrNum s r1 = p4StrNum s r2)
  ∧ (∀ (rest : List Nat) (r : Nat), (∀ c ∈ rest, p4Base36 c < 16) →
        p4StrNum (36 :: rest) r = .int (digitsVal 16 rest 0) (1 + rest.length))
  ∧ (∀ (rest : List Nat) (r : Nat), (∀ c ∈ rest, p4Base36 c < 16) →
        p4StrNum (36 :: 45 :: rest) r = .int (wrap64 (-(digitsVal 16 rest 0))) (2 + rest.length))
  ∧ (∀ (s : List Nat) (r : Nat) (compiling : Bool) (v : Int) (consumed : Nat),
        p4StrNum s r = .int v consumed →
        (replNumberBranch s r compiling = .undefined ↔ consumed ≠ s.length)) := by
  refine ⟨?_, ?_, ?_, ?_, ?_, ?_, ?_⟩
  · decide
  · intro rest r1 r2
    refine ⟨rfl, rfl, rfl⟩
  · intro s r1 r2 h3 h0 h1
    rcases s with _ | ⟨a, s⟩; · simp at h3
    rcases s with _ | ⟨b, s⟩; · simp at h3
    rcases s with _ | ⟨c, s⟩; · simp at h3
    simp only [List.getD_cons_zero, List.getD_cons_succ] at h0 h1
    subst h0
    have hlen : 2 < (48 :: b :: c :: s).length := by simp
    simp [p4StrNum, hlen, h1]
  · intro s r1 r2 h2 h0 h1
    rcases s with _ | ⟨a, s⟩; · simp at h2
    rcases s with _ | ⟨b, s⟩; · simp at h2
    simp only [List.getD_cons_zero, List.getD_cons_succ] at h0 h1
    subst h0
    have htl : c_tolower b ≠ 120 := by
      rcases h1 with hd | h45
      · rcases hd with ⟨hl, hu⟩
        unfold c_tolower
        rw [if_neg (by omega)]
        omega
      · subst h45; decide
    have hc1 : ¬(2 < (48 :: b :: s).length ∧ c_tolower b = 120) :=
      fun hx => htl hx.2
    have hc2 : 1 < (48 :: b :: s).length := by simp
    simp [p4StrNum, hc1, hc2, h1]
  · intro rest r h
    rcases rest with _ | ⟨c, t⟩
    · simp [p4StrNum, strNumDigits, digitsVal]
    · have hc : p4Base36 c < 16 := h c (by simp)
      have hc45 : c ≠ 45 := by
        intro he; rw [he] at hc; revert hc; decide
      rw [p4StrNum_dollar]
      rw [if_neg (by simp [hc45])]
      rw [show ((36 : Nat) :: c :: t).drop ((false, 1) : Bool × Nat).2 = c :: t from rfl]
      rw [strNumDigits_valid 16 ((false, 1) : Bool × Nat).1 (c :: t) 0 _ h]
      simp [Nat.add_comm]
  · intro rest r h
    rw [p4StrNum_dollar]
    have hm : (1 : Nat) < (36 :: 45 :: rest).length ∧
        ((36 : Nat) :: 45 :: rest).getD 1 0 = 45 := by simp
    rw [if_pos hm]
    rw [show ((36 : Nat) :: 45 :: rest).drop ((true, 2) : Bool × Nat).2 = rest from rfl]
    rw [strNumDigits_valid 16 ((true, 2) : Bool × Nat).1 rest 0 _ h]
    simp [Nat.add_comm]
  · intro s r compiling v consumed h
    by_cases hc : consumed = s.length
    · simp [replNumberBranch, h, hc]; cases compiling <;> simp
    · simp [replNumberBranch, h, hc]

set_option maxRecDepth 8192 in
/-- Witness for the amended claim C8 at concrete inputs: `a` maps to 10;
`"$F"` is radix-independent; `"0XF"` and `"07"` are radix-independent;
`"$FF"` parses to 255 over 3 bytes; `"$"` followed by seventeen `F`s
wraps in the 64-bit cell to -1 (not the unbounded value `16^17 - 1`);
`"$-F"` parses to -15; `"$F"` is fully consumed so the REPL accepts
it. -/
theorem claim_C8_amended_witness :
    p4Base36 97 = specBase36 97
  ∧ p4StrNum [36, 70] 3 = p4StrNum [36, 70] 28
  ∧ p4StrNum [48, 88, 70] 7 = p4StrNum [48, 88, 70] 19
  ∧ p4StrNum [48, 55] 7 = p4StrNum [48, 55] 19
  ∧ p4StrNum [36, 70, 70] 9 = .int 255 3
  ∧ p4StrNum (36 :: List.replicate 17 70) 9 = .int (-1) 18
  ∧ p4StrNum [36, 45, 70] 9 = .int (-15) 3
  ∧ (replNumberBranch [36, 70] 10 false = .undefined ↔ (2 : Nat) ≠ [36, 70].length) :=
  ⟨claim_C8_amended.1 97 (by decide),
   (claim_C8_amended.2.1 [70] 3 28).1,
   claim_C8_amended.2.2.1 [48, 88, 70] 7 19 (by decide) (by decide) (by decide),
   claim_C8_amended.2.2.2.1 [48, 55] 7 19 (by decide) (by decide) (Or.inl (by decide)),
   claim_C8_amended.2.2.2.2.1 [70, 70] 9 (by decide),
   claim_C8_amended.2.2.2.2.1 (List.replicate 17 70) 9 (by decide),
   claim_C8_amended.2.2.2.2.2.1 [70] 9 (by decide),
   claim_C8_amended.2.2.2.2.2.2 [36, 70] 10 false 15 2 (by decide)⟩

/-! ### Throw codes (post4.h, P4_THROW_*) -/

def P4_THROW_OK : Int := 0
def P4_THROW_ABORT : Int := -1
def P4_THROW_ABORT_MSG : Int := -2
def P4_THROW_DS_OVER : Int := -3
def P4_THROW_DS_UNDER : Int := -4
def P4_THROW_RS_OVER : Int := -5
def P4_THROW_RS_UNDER : Int := -6
def P4_THROW_LOOP_DEPTH : Int := -7
def P4_THROW_SIGSEGV : Int := -9
def P4_THROW_UNDEFINED : Int := -13
def P4_THROW_BAD_CONTROL : Int := -22
def P4_THROW_COMPILING : Int := -29
def P4_THROW_NOT_CREATED : Int := -31
def P4_THROW_FS_OVER : Int := -44
def P4_THROW_FS_UNDER : Int := -45
def P4_THROW_QUIT : Int := -56
def P4_THROW_ALLOCATE : Int := -59
def P4_THROW_RESIZE : Int := -61

/-! ### Word flag bits (post4.h, P4_BIT_*) -/

def P4_BIT_IMM : Nat := 1
def P4_BIT_CREATED : Nat := 2
def P4_BIT_HIDDEN : Nat := 4
def P4_BIT_COMPILE : Nat := 8

/-- Cell size in bytes on the LP64 build (`sizeof (P4_Cell)`). -/
def P4_CELL : Int := 8

/-- Modelled from the spec: the macro `P4_ALIGN_BY` comes from the
configuration header, which is not under `src/`; spec section 4.3 says
`align` "advances `here` to the next cell boundary", so `P4_ALIGN_BY x`
is the number of bytes from `x` up to the next multiple of the cell
size (0 when `x` is already aligned). -/
def P4_ALIGN_BY (x : Int) : Int := (-x) % P4_CELL

/-! ### Dictionary and data-space facet (post4.c:1064-1131, 1318-1357,
1841-1854)

For the allocator claims only byte addresses, byte counts and flag bits
matter, so a word is modelled by its header fields and its `data` base
address, and the context by the word list (head first, the C `prev`
chain), the bump pointer `here` and the limit `end`.  The `heap` field
records the addresses handed out by `ALLOCATE` (`malloc`), which the
dictionary code never touches. -/

structure DictWord where
  name : List Nat
  bits : Nat
  data : Int
  ndata : Int
deriving DecidableEq, Repr, Inhabited

structure DictCtx where
  words : List DictWord
  here : Int
  mem_end : Int
  state : Int
  heap : List Int
deriving DecidableEq, Repr, Inhabited

/-- `p4Allot` (post4.c:1073-1091): raise *allocate* when
`end <= here + n`, *resize* when `here + n` falls below the head word's
data base, otherwise advance `here`, add `n` to the head word's
`ndata`, and return the old `here`. -/
def p4Allot (ctx : DictCtx) (n : Int) : Except Int (DictCtx × Int) :=
  if ctx.mem_end ≤ ctx.here + n then .error P4_THROW_ALLOCATE
  else if ctx.here + n < (ctx.words.headD default).data then .error P4_THROW_RESIZE
  else
    .ok ({ ctx with
            here := ctx.here + n,
            words := match ctx.words with
                     | [] => []
                     | w :: ws => { w with ndata := w.ndata + n } :: ws },
         ctx.here)

/-- `p4WordCreate` (post4.c:1093-1122): align `here`, start a new word
whose `data` base is the aligned `here`, with `ndata = 0`, `bits = 0`,
linked in front of the previous head.  (The `malloc`/`strndup` failure
paths, which also raise *allocate*, are not modelled.) -/
def p4WordCreate (ctx : DictCtx) (name : List Nat) : Except Int DictCtx := do
  let pr ← p4Allot ctx (P4_ALIGN_BY ctx.here)
  let ctx1 := pr.1
  .ok { ctx1 with words := ⟨name, 0, ctx1.here, 0⟩ :: ctx1.words }

/-- `_rm_marker` (post4.c:1845-1854) executing the marker word that sits
at position `i` of the word list: free every newer word and the marker
itself, point the head at the marker's predecessor, and rewind `here`
to the marker's data base.  `ALLOCATE`d heap blocks are untouched. -/
def p4RmMarker (ctx : DictCtx) (i : Nat) : DictCtx :=
  { ctx with
      words := ctx.words.drop (i + 1),
      here := (ctx.words.getD i default).data }

/-- `_allocate` (post4.c:2068-2077): `malloc` a block and record it;
the address is a parameter because it comes from the host allocator. -/
def p4AllocateBlock (ctx : DictCtx) (addr : Int) : DictCtx :=
  { ctx with heap := addr :: ctx.heap }

/-- `p4Exception` (post4.c:1318-1357): the REPL's uncaught-exception
report.  ABORT", ABORT, QUIT and OK return immediately; any other code
falls through to the HIDDEN test, and a hidden head word (an unfinished
definition) is unlinked, `here` rewound to its data base, the word
freed and the state set back to interpret.  Returns the (unchanged)
throw code alongside the updated context. -/
def p4Exception (ctx : DictCtx) (code : Int) : DictCtx × Int :=
  if code = P4_THROW_ABORT_MSG ∨ code = P4_THROW_ABORT
      ∨ code = P4_THROW_QUIT ∨ code = P4_THROW_OK then
    (ctx, code)
  else
    match ctx.words with
    | [] => (ctx, code)
    | w :: rest =>
      if w.bits &&& P4_BIT_HIDDEN = P4_BIT_HIDDEN then
        ({ ctx with state := 0, words := rest, here := w.data }, code)
      else
        (ctx, code)

/-! ### Claim C3: the allocator bounds -/

/-- Claim C3 counterexample: a request with `here + n` exactly equal to
`end` does NOT succeed; `p4Allot` tests `end <= here + n` and raises
*allocate* on equality. -/
theorem claim_C3_counterexample :
    (⟨[⟨[], 0, 0, 0⟩], 0, 8, 0, []⟩ : DictCtx).here + 8
        = (⟨[⟨[], 0, 0, 0⟩], 0, 8, 0, []⟩ : DictCtx).mem_end
  ∧ p4Allot ⟨[⟨[], 0, 0, 0⟩], 0, 8, 0, []⟩ 8 = .error P4_THROW_ALLOCATE := by
  constructor
  · rfl
  · rfl

/-- Claim C3 as amended: `p4Allot` raises *allocate* exactly when
`here + n ≥ end` (so the boundary case `here + n = end` fails); below
that bound it raises *resize* exactly when `here + n` would drop below
the head word's data base, which can only happen for negative `n`; and
otherwise it advances `here` by `n`, adds `n` to the head word's
`ndata`, and returns the old `here`. -/
theorem claim_C3 (ctx : DictCtx) (n : Int)
    (hw : ctx.words ≠ [])
    (hinv : (ctx.words.headD default).data ≤ ctx.here) :
    (p4Allot ctx n = .error P4_THROW_ALLOCATE ↔ ctx.mem_end ≤ ctx.here + n)
  ∧ (ctx.here + n < ctx.mem_end →
      (p4Allot ctx n = .error P4_THROW_RESIZE
        ↔ ctx.here + n < (ctx.words.headD default).data))
  ∧ (ctx.here + n < (ctx.words.headD default).data → n < 0)
  ∧ (ctx.here + n < ctx.mem_end → (ctx.words.headD default).data ≤ ctx.here + n →
      ∃ ctx', p4Allot ctx n = .ok (ctx', ctx.here)
        ∧ ctx'.here = ctx.here + n
        ∧ (ctx'.words.headD default).ndata = (ctx.words.headD default).ndata + n
        ∧ (ctx'.words.headD default).data = (ctx.words.headD default).data
        ∧ ctx'.words.tail = ctx.words.tail
        ∧ ctx'.mem_end = ctx.mem_end ∧ ctx'.state = ctx.state
        ∧ ctx'.heap = ctx.heap) := by
  obtain ⟨words, hre, mend, st, hp⟩ := ctx
  rcases words with _ | ⟨w, ws⟩
  · exact absurd rfl hw
  simp only [List.headD_cons] at hinv ⊢
  by_cases h1 : mend ≤ hre + n
  · have hA : p4Allot ⟨w :: ws, hre, mend, st, hp⟩ n = .error P4_THROW_ALLOCATE := by
      simp [p4Allot, h1]
    refine ⟨by simp [hA, h1], fun h => by omega, fun h => by omega, fun h _ => by omega⟩
  · by_cases h2 : hre + n < w.data
    · have hA : p4Allot ⟨w :: ws, hre, mend, st, hp⟩ n = .error P4_THROW_RESIZE := by
        simp [p4Allot, h1, h2]
      refine ⟨?_, fun _ => ?_, fun _ => by omega, fun _ hge => by omega⟩
      · rw [hA]
        simp [P4_THROW_ALLOCATE, P4_THROW_RESIZE, h1]
      · rw [hA]
        simp [h2]
    · have hA : p4Allot ⟨w :: ws, hre, mend, st, hp⟩ n
          = .ok (⟨{ w with ndata := w.ndata + n } :: ws, hre + n, mend, st, hp⟩, hre) := by
        simp [p4Allot, h1, h2]
      refine ⟨by simp [hA, h1], fun _ => by simp [hA, h2], fun h => by omega, fun _ _ => ?_⟩
      exact ⟨⟨{ w with ndata := w.ndata + n } :: ws, hre + n, mend, st, hp⟩,
        hA, rfl, by simp, by simp, rfl, rfl, rfl, rfl⟩

/-- Witness for the amended claim C3 at a concrete context: with
`here = 8`, `end = 100`, head data base 0, an 8-byte request does not
hit the *allocate* bound. -/
theorem claim_C3_witness :
    (p4Allot ⟨[⟨[], 0, 0, 0⟩], 8, 100, 0, []⟩ 8 = .error P4_THROW_ALLOCATE
      ↔ (100 : Int) ≤ 8 + 8) :=
  (claim_C3 ⟨[⟨[], 0, 0, 0⟩], 8, 100, 0, []⟩ 8 (by simp) (by decide)).1

/-! ### Claim C5: discarding an in-progress definition on a throw -/

/-- Claim C5 counterexample: a throw code CAN reach `p4Exception` with
HIDDEN set on the head word without the definition being discarded:
ABORT (-1) returns before the HIDDEN test, leaving the hidden word
linked, `here` unmoved and the state still compiling. -/
theorem claim_C5_counterexample :
    ((⟨[⟨[120], 4, 16, 0⟩, ⟨[], 0, 0, 8⟩], 24, 1024, -1, []⟩ : DictCtx).words.headD
        default).bits &&& P4_BIT_HIDDEN = P4_BIT_HIDDEN
  ∧ p4Exception ⟨[⟨[120], 4, 16, 0⟩, ⟨[], 0, 0, 8⟩], 24, 1024, -1, []⟩ P4_THROW_ABORT
      = (⟨[⟨[120], 4, 16, 0⟩, ⟨[], 0, 0, 8⟩], 24, 1024, -1, []⟩, P4_THROW_ABORT)
  ∧ (p4Exception ⟨[⟨[120], 4, 16, 0⟩, ⟨[], 0, 0, 8⟩], 24, 1024, -1, []⟩
        P4_THROW_ABORT).1.state ≠ 0 := by
  refine ⟨rfl, rfl, by decide⟩

/-- Claim C5 as amended: for every throw code other than ABORT",
ABORT, QUIT and OK, reaching `p4Exception` with HIDDEN set on the head
word discards the in-progress definition: the head word is unlinked,
`here` is rewound to its data base, the state becomes interpret, and
the code is returned unchanged. -/
theorem claim_C5 (ctx : DictCtx) (code : Int)
    (h1 : code ≠ P4_THROW_ABORT_MSG) (h2 : code ≠ P4_THROW_ABORT)
    (h3 : code ≠ P4_THROW_QUIT) (h4 : code ≠ P4_THROW_OK)
    (hw : ctx.words ≠ [])
    (hhid : (ctx.words.headD default).bits &&& P4_BIT_HIDDEN = P4_BIT_HIDDEN) :
    (p4Exception ctx code).1.words = ctx.words.tail
  ∧ (p4Exception ctx code).1.here = (ctx.words.headD default).data
  ∧ (p4Exception ctx code).1.state = 0
  ∧ (p4Exception ctx code).1.heap = ctx.heap
  ∧ (p4Exception ctx code).2 = code := by
  obtain ⟨words, hre, mend, st, hp⟩ := ctx
  rcases words with _ | ⟨w, ws⟩
  · exact absurd rfl hw
  simp only [List.headD_cons] at hhid ⊢
  simp [p4Exception, h1, h2, h3, h4, hhid]

/-- Witness for the amended claim C5: an *undefined* throw (-13) while
the head word `w` is hidden discards the definition. -/
theorem claim_C5_witness :
    (p4Exception ⟨[⟨[119], 4, 32, 0⟩, ⟨[], 0, 0, 8⟩], 48, 1024, -1, []⟩
        (-13)).1.words
      = (⟨[⟨[119], 4, 32, 0⟩, ⟨[], 0, 0, 8⟩], 48, 1024, -1, []⟩ : DictCtx).words.tail
  ∧ (p4Exception ⟨[⟨[119], 4, 32, 0⟩, ⟨[], 0, 0, 8⟩], 48, 1024, -1, []⟩
        (-13)).1.here
      = ((⟨[⟨[119], 4, 32, 0⟩, ⟨[], 0, 0, 8⟩], 48, 1024, -1, []⟩ : DictCtx).words.headD
          default).data
  ∧ (p4Exception ⟨[⟨[119], 4, 32, 0⟩, ⟨[], 0, 0, 8⟩], 48, 1024, -1, []⟩
        (-13)).1.state = 0
  ∧ (p4Exception ⟨[⟨[119], 4, 32, 0⟩, ⟨[], 0, 0, 8⟩], 48, 1024, -1, []⟩
        (-13)).1.heap
      = (⟨[⟨[119], 4, 32, 0⟩, ⟨[], 0, 0, 8⟩], 48, 1024, -1, []⟩ : DictCtx).heap
  ∧ (p4Exception ⟨[⟨[119], 4, 32, 0⟩, ⟨[], 0, 0, 8⟩], 48, 1024, -1, []⟩
        (-13)).2 = -13 :=
  claim_C5 ⟨[⟨[119], 4, 32, 0⟩, ⟨[], 0, 0, 8⟩], 48, 1024, -1, []⟩ (-13)
    (by decide) (by decide) (by decide) (by decide) (by simp) (by decide)

/-! ### Claim C6: MARKER -/

theorem drop_append_cons {α : Type} (extra : List α) (a : α) (l : List α) :
    (extra ++ a :: l).drop (extra.length + 1) = l := by
  induction extra with
  | nil => rfl
  | cons x xs ih => simp only [List.cons_append, List.length_cons, List.drop_succ_cons]; exact ih

theorem getD_append_length {α : Type} [Inhabited α] (extra : List α) (a : α)
    (l : List α) : (extra ++ a :: l).getD extra.length default = a := by
  induction extra with
  | nil => rfl
  | cons x xs ih => simpa using ih

/-- Claim C6 counterexample: after `1 ALLOT` the data-space pointer is
`here = 1`; defining `MARKER m` cell-aligns `here` to 8 (bumping the
previous head's `ndata` in place) and records 8 as the marker's data
base, so executing `m` rewinds `here` to 8, not to the value 1 it had
when `MARKER m` executed. -/
theorem claim_C6_counterexample :
    p4Allot ⟨[⟨[], 0, 0, 0⟩], 0, 100, 0, []⟩ 1
      = .ok (⟨[⟨[], 0, 0, 1⟩], 1, 100, 0, []⟩, 0)
  ∧ p4WordCreate ⟨[⟨[], 0, 0, 1⟩], 1, 100, 0, []⟩ [109]
      = .ok ⟨[⟨[109], 0, 8, 0⟩, ⟨[], 0, 0, 8⟩], 8, 100, 0, []⟩
  ∧ (p4RmMarker ⟨[⟨[109], 0, 8, 0⟩, ⟨[], 0, 0, 8⟩], 8, 100, 0, []⟩ 0).here = 8
  ∧ (⟨[⟨[], 0, 0, 1⟩], 1, 100, 0, []⟩ : DictCtx).here = 1 := by
  refine ⟨rfl, rfl, rfl, rfl⟩

/-- Claim C6 as amended: executing the marker removes the marker and
every newer word and leaves heap blocks untouched; the dictionary head
pointer is restored exactly (in this value model: the tail below the
marker, with the former head's `ndata` grown in place by the alignment
pad taken when the marker was created), and `here` is rewound to the
cell-aligned value it had when `MARKER` executed — exactly its old
value whenever it was cell-aligned at that point. -/
theorem claim_C6 (ctx₀ ctx₁ ctx₂ : DictCtx) (name : List Nat)
    (w₀ : DictWord) (rest₀ : List DictWord) (extra : List DictWord)
    (hw0 : ctx₀.words = w₀ :: rest₀)
    (hcreate : p4WordCreate ctx₀ name = .ok ctx₁)
    (hwords : ctx₂.words = extra ++ ctx₁.words) :
    (p4RmMarker ctx₂ extra.length).words
      = { w₀ with ndata := w₀.ndata + P4_ALIGN_BY ctx₀.here } :: rest₀
  ∧ (p4RmMarker ctx₂ extra.length).here = ctx₀.here + P4_ALIGN_BY ctx₀.here
  ∧ (ctx₀.here % P4_CELL = 0 →
      (p4RmMarker ctx₂ extra.length).words = ctx₀.words
      ∧ (p4RmMarker ctx₂ extra.length).here = ctx₀.here)
  ∧ (p4RmMarker ctx₂ extra.length).heap = ctx₂.heap
  ∧ (p4RmMarker ctx₂ extra.length).state = ctx₂.state := by
  obtain ⟨words₀, here₀, mend₀, st₀, hp₀⟩ := ctx₀
  simp only at hw0
  subst hw0
  unfold p4WordCreate at hcreate
  by_cases hg1 : mend₀ ≤ here₀ + P4_ALIGN_BY here₀
  · have hA : p4Allot ⟨w₀ :: rest₀, here₀, mend₀, st₀, hp₀⟩ (P4_ALIGN_BY here₀)
        = .error P4_THROW_ALLOCATE := by simp [p4Allot, hg1]
    rw [hA] at hcreate
    simp [Bind.bind, Except.bind] at hcreate
  · by_cases hg2 : here₀ + P4_ALIGN_BY here₀ < w₀.data
    · have hA : p4Allot ⟨w₀ :: rest₀, here₀, mend₀, st₀, hp₀⟩ (P4_ALIGN_BY here₀)
          = .error P4_THROW_RESIZE := by simp [p4Allot, hg1, hg2]
      rw [hA] at hcreate
      simp [Bind.bind, Except.bind] at hcreate
    · have hA : p4Allot ⟨w₀ :: rest₀, here₀, mend₀, st₀, hp₀⟩ (P4_ALIGN_BY here₀)
          = .ok (⟨{ w₀ with ndata := w₀.ndata + P4_ALIGN_BY here₀ } :: rest₀,
                  here₀ + P4_ALIGN_BY here₀, mend₀, st₀, hp₀⟩, here₀) := by
        simp [p4Allot, hg1, hg2]
      rw [hA] at hcreate
      simp only [Bind.bind, Except.bind, Except.ok.injEq] at hcreate
      subst hcreate
      have hdrop : (p4RmMarker ctx₂ extra.length).words
          = { w₀ with ndata := w₀.ndata + P4_ALIGN_BY here₀ } :: rest₀ := by
        show ctx₂.words.drop (extra.length + 1) = _
        rw [hwords]
        exact drop_append_cons extra _ _
      have hget : (p4RmMarker ctx₂ extra.length).here = here₀ + P4_ALIGN_BY here₀ := by
        show (ctx₂.words.getD extra.length default).data = _
        rw [hwords]
        rw [getD_append_length extra]
      refine ⟨hdrop, hget, ?_, rfl, rfl⟩
      intro hal
      have hal' : here₀ % 8 = 0 := hal
      have hz : P4_ALIGN_BY here₀ = 0 := by
        unfold P4_ALIGN_BY P4_CELL
        omega
      rw [hz] at hdrop hget
      refine ⟨?_, by simpa using hget⟩
      rw [hdrop]
      simp

/-- Witness for the amended claim C6: `here = 16` is cell-aligned, so a
marker created there and executed immediately (no `extra` words)
restores the dictionary and `here` exactly. -/
theorem claim_C6_witness :
    (p4RmMarker ⟨[⟨[109], 0, 16, 0⟩, ⟨[], 0, 0, 16⟩], 16, 100, 0, []⟩ 0).words
      = { name := ([] : List Nat), bits := 0, data := 0,
          ndata := (16 : Int) + P4_ALIGN_BY 16 } :: []
  ∧ (p4RmMarker ⟨[⟨[109], 0, 16, 0⟩, ⟨[], 0, 0, 16⟩], 16, 100, 0, []⟩ 0).here
      = 16 + P4_ALIGN_BY 16
  ∧ ((16 : Int) % P4_CELL = 0 →
      (p4RmMarker ⟨[⟨[109], 0, 16, 0⟩, ⟨[], 0, 0, 16⟩], 16, 100, 0, []⟩ 0).words
        = [⟨[], 0, 0, 16⟩]
      ∧ (p4RmMarker ⟨[⟨[109], 0, 16, 0⟩, ⟨[], 0, 0, 16⟩], 16, 100, 0, []⟩ 0).here = 16)
  ∧ (p4RmMarker ⟨[⟨[109], 0, 16, 0⟩, ⟨[], 0, 0, 16⟩], 16, 100, 0, []⟩ 0).heap = []
  ∧ (p4RmMarker ⟨[⟨[109], 0, 16, 0⟩, ⟨[], 0, 0, 16⟩], 16, 100, 0, []⟩ 0).state = 0 :=
  claim_C6 ⟨[⟨[], 0, 0, 16⟩], 16, 100, 0, []⟩
    ⟨[⟨[109], 0, 16, 0⟩, ⟨[], 0, 0, 16⟩], 16, 100, 0, []⟩
    ⟨[⟨[109], 0, 16, 0⟩, ⟨[], 0, 0, 16⟩], 16, 100, 0, []⟩
    [109] ⟨[], 0, 0, 16⟩ [] [] rfl (by rfl) rfl

/-! ### The inner-interpreter machine

Words are malloc'ed records in C; the model stores them in an
append-only list `store`, so a word id (`wid`, the model of a `P4_Word
*` execution token) stays stable, and the dictionary is the `prev`
chain starting at `head` exactly as in C.  Compiled data is addressed
at cell granularity: word `wid`'s data cell `i` is `Ptr.word wid i`
(the byte-level bump allocator is the `DictCtx` facet above). -/

/-- A cell pointer: into word `wid`'s data array, or into the static
two-cell `exec[]` trampoline of `p4Repl` (post4.c:1378). -/
inductive Ptr where
  | word (wid : Nat) (idx : Nat)
  | exec (idx : Nat)
deriving DecidableEq, Repr

/-- Cells of the machine model.  The C `P4_Cell` union overlays integer,
word pointer (execution token) and cell pointer; the model keeps them
as a sum and gets stuck where C would reinterpret one as another. -/
inductive Cell where
  | int (n : Int)
  | xt (wid : Nat)
  | ptr (p : Ptr)
deriving DecidableEq, Repr

instance : Inhabited Cell := ⟨Cell.int 0⟩

/-- The `.n` reading of a cell (C reads the union member; the model only
allows it on integer cells). -/
def Cell.getInt : Cell → Option Int
  | .int n => some n
  | _ => none

/-! #### Stacks (post4.h `P4_Stack` and the `P4_*` stack macros)

A C stack is a malloc'ed cell array `base[0..size]` with a moving `top`
pointer; `P4_LENGTH` is the pointer difference `top + 1 - base`.  The
model keeps the array as a total function from `Int` (index relative to
`base`) so that the unchecked `P4_POP`/`P4_PUSH` macros behave exactly
as in C: popping an empty stack reads whatever sits below `base` and
drives the length negative, it does not throw by itself. -/

structure Stk where
  size : Nat
  mem : Int → Cell
  top : Int

/-- `P4_LENGTH`: `top + 1 - base`. -/
def Stk.length (s : Stk) : Int := s.top + 1

/-- `P4_PUSH`. -/
def Stk.push (s : Stk) (c : Cell) : Stk :=
  { s with top := s.top + 1, mem := fun i => if i = s.top + 1 then c else s.mem i }

/-- `P4_POP`: read the top cell, decrement `top`. -/
def Stk.pop (s : Stk) : Cell × Stk :=
  (s.mem s.top, { s with top := s.top - 1 })

/-- `P4_TOP` read. -/
def Stk.topCell (s : Stk) : Cell := s.mem s.top

/-- `P4_TOP` write. -/
def Stk.setTop (s : Stk) (c : Cell) : Stk :=
  { s with mem := fun i => if i = s.top then c else s.mem i }

/-- `P4_RESET`: `top = base - 1`. -/
def Stk.reset (s : Stk) : Stk := { s with top := -1 }

/-- `p4StackCanPopPush` (post4.c:1277-1304): underflow when fewer than
`pop` cells are on the stack, overflow when the new length would exceed
`size`.  The C function picks `over`/`under` codes from the identity of
the stack (`&ctx->ds`, `&ctx->rs`, `&ctx->fs`); the model passes the
codes of the stack being checked explicitly. -/
def p4StackCanPopPush (s : Stk) (over under : Int) (pop push : Int) : Option Int :=
  if s.length < pop then some under
  else if (s.size : Int) < s.length + push - pop then some over
  else none

/-! #### Dictionary words and the machine -/

/-- Primitive code handles (the `&&_label` values used as `word->code`)
for the primitives the claims exercise. -/
inductive PCode where
  | enter
  | exitc
  | lit
  | data_field
  | do_does
  | add
  | sub
  | mul
  | to_rs
  | from_rs
  | colon
  | noname
  | semicolon
  | create
  | does
  | repl
deriving DecidableEq, Repr

/-- A dictionary word (post4.h `struct p4_word`), data at cell
granularity. -/
structure PWord where
  name : List Nat
  bits : Nat
  code : PCode
  prev : Option Nat
  data : List Cell
deriving DecidableEq, Repr

instance : Inhabited PWord := ⟨⟨[], 0, .repl, none, []⟩⟩

/-- Input source: the live buffer and the parse offset (`>IN`). -/
structure P4InputM where
  buffer : List Nat
  offset : Nat
deriving DecidableEq, Repr

/-- `p4Parse` (post4.c:422-463) with `escape = 0` (the only mode the
claims reach; the escape mode rewrites the buffer and is used for
`S\"` only): scan from the offset until the delimiter, or until any
control character when the delimiter is space; return the slice and
advance the offset past the delimiter when one was found. -/
def p4Parse (input : P4InputM) (delim : Nat) : List Nat × P4InputM :=
  let rest := input.buffer.drop input.offset
  let n := (rest.takeWhile fun ch =>
    !((ch == delim) || ((delim == 32) && c_iscntrl ch))).length
  (rest.take n,
   { input with offset := input.offset + n
       + (if input.offset + n < input.buffer.length then 1 else 0) })

/-- `p4ParseName` (post4.c:465-476): skip leading white space, then
parse with the space delimiter. -/
def p4ParseName (input : P4InputM) : List Nat × P4InputM :=
  let skip := ((input.buffer.drop input.offset).takeWhile c_isspace).length
  p4Parse { input with offset := input.offset + skip } 32

/-- Fixed store slots of the static words `w_lit`, `w_exit`, `w_repl`
(post4.c:1369-1371), which compiled bodies and the trampoline point at. -/
def WID_LIT : Nat := 0
def WID_EXIT : Nat := 1
def WID_REPL : Nat := 2

/-- The machine: data and return stacks, interpreter state, the word
store with the dictionary head, the input source, and the current
occupant of `exec[0]` (the xt the REPL is about to run). -/
structure P4Machine where
  ds : Stk
  rs : Stk
  state : Int
  store : List PWord
  head : Nat
  input : P4InputM
  execSlot : Nat

/-- Dereference a word id. -/
def P4Machine.wordAt (m : P4Machine) (wid : Nat) : PWord :=
  m.store.getD wid default

/-- `ctx->words`, the dictionary head word. -/
def P4Machine.headWord (m : P4Machine) : PWord := m.wordAt m.head

/-- Update the word record `wid` in place (C mutates the malloc'ed
record through the head pointer). -/
def P4Machine.updateWord (m : P4Machine) (wid : Nat) (f : PWord → PWord) : P4Machine :=
  { m with store := m.store.set wid (f (m.wordAt wid)) }

/-- Read the cell an instruction pointer points at: word data, or the
`exec[]` trampoline whose slot 0 holds the xt being executed and slot 1
the `w_repl` transition (post4.c:1373-1378). -/
def P4Machine.fetchCell (m : P4Machine) : Ptr → Cell
  | .word wid idx => (m.wordAt wid).data.getD idx default
  | .exec 0 => .xt m.execSlot
  | .exec 1 => .xt WID_REPL
  | .exec _ => default

/-- `ip++`. -/
def ipNext : Ptr → Ptr
  | .word wid idx => .word wid (idx + 1)
  | .exec idx => .exec (idx + 1)

/-- Check the data stack (codes -3 and -4, post4.c:1280-1281). -/
def dsCheck (m : P4Machine) (pop push : Int) : Option Int :=
  p4StackCanPopPush m.ds P4_THROW_DS_OVER P4_THROW_DS_UNDER pop push

/-- Check the return stack (codes -5 and -6, post4.c:1285-1286). -/
def rsCheck (m : P4Machine) (pop push : Int) : Option Int :=
  p4StackCanPopPush m.rs P4_THROW_RS_OVER P4_THROW_RS_UNDER pop push

/-- `p4WordCreate` at the machine level: a fresh record appended to the
store, linked in front of the old head, becomes the new head.  (The
byte-level alignment of the data base is the `DictCtx` facet; data here
is cell-granular.) -/
def p4WordCreateM (m : P4Machine) (name : List Nat) (code : PCode) : P4Machine :=
  { m with store := m.store ++ [⟨name, 0, code, some m.head, []⟩],
           head := m.store.length }

/-- `p4WordAppend` at the machine level: emit one cell at the end of
the head word's data. -/
def p4WordAppendM (m : P4Machine) (c : Cell) : P4Machine :=
  m.updateWord m.head fun w => { w with data := w.data ++ [c] }

/-! #### The control sentinel of `_do_colon` (post4.c:1798)

`w.u = ((char)P4_LENGTH(ctx->rs) << CHAR_BIT) | (char)P4_LENGTH(ctx->ds)`
on an LP64 platform with signed `char`: each length (a 64-bit pointer
difference) is truncated to its low byte, sign-extended to a 32-bit
`int`, the first shifted left 8 bits, the two OR-ed, and the 32-bit
result sign-extended into the 64-bit unsigned cell.  `packDepths`
computes the resulting 64-bit pattern. -/

/-- `(char)x` as a bit pattern: the low byte. -/
def byteOf (x : Int) : Nat := (x % 256).toNat

/-- Sign-extend an 8-bit pattern to a 32-bit pattern. -/
def sext8to32 (b : Nat) : Nat := if b < 128 then b else b + 0xFFFFFF00

/-- Sign-extend a 32-bit pattern to a 64-bit pattern. -/
def sext32to64 (v : Nat) : Nat := if v < 0x80000000 then v else v + 0xFFFFFFFF00000000

/-- The packed control sentinel of `_do_colon`/`_semicolon`. -/
def packDepths (rsLen dsLen : Int) : Nat :=
  sext32to64
    (Nat.lor (Nat.land (sext8to32 (byteOf rsLen) * 256) 0xFFFFFFFF)
             (sext8to32 (byteOf dsLen)))

/-! #### One dispatch of the inner interpreter -/

/-- Result of running one primitive: continue the threaded loop at a
new ip, transition back into the C REPL loop (`_repl`), a `LONGJMP`
with a throw code, or a configuration whose C behaviour is undefined
(reinterpreting a non-integer cell as an integer, etc.). -/
inductive Outcome where
  | cont (m : P4Machine) (ip : Ptr)
  | toRepl (m : P4Machine)
  | thrown (code : Int)
  | stuck

/-- `_exit` (post4.c:1687-1689): check, pop the return stack into `ip`. -/
def doExit (m : P4Machine) : Outcome :=
  match rsCheck m 1 0 with
  | some c => .thrown c
  | none =>
    match m.rs.pop with
    | (.ptr p, rs') => .cont { m with rs := rs' } p
    | _ => .stuck

/-- `_do_colon` (post4.c:1796-1803): push the packed sentinel, enter
compile state, create the new word with code handle `enter`, hide it. -/
def doColon (m : P4Machine) (name : List Nat) (ip : Ptr) : Outcome :=
  let packed := packDepths m.rs.length m.ds.length
  let m1 := { m with ds := m.ds.push (.int packed) }
  let m2 := { m1 with state := -1 }
  let m3 := p4WordCreateM m2 name .enter
  let m4 := m3.updateWord m3.head fun w => { w with bits := w.bits ||| P4_BIT_HIDDEN }
  .cont m4 ip

/-- `_semicolon` (post4.c:1805-1821): pop the sentinel, recompute the
packed lengths, *bad-control* on mismatch; otherwise append the `exit`
token, clear HIDDEN, return to interpret state, and for a `:NONAME`
(empty name) push the new word's xt. -/
def doSemicolon (m : P4Machine) (ip : Ptr) : Outcome :=
  let pr := m.ds.pop
  let m1 := { m with ds := pr.2 }
  let x := packDepths m1.rs.length m1.ds.length
  match pr.1 with
  | .int wv =>
    if wv ≠ (x : Int) then .thrown P4_THROW_BAD_CONTROL
    else
      let m2 := p4WordAppendM m1 (.xt WID_EXIT)
      let m3 := m2.updateWord m2.head fun w =>
        { w with bits := w.bits &&& (0xFFFFFFFFFFFFFFFF - P4_BIT_HIDDEN) }
      let m4 := { m3 with state := 0 }
      if m4.headWord.name = [] then
        .cont { m4 with ds := m4.ds.push (.xt m4.head) } ip
      else
        .cont m4 ip
  | _ => .stuck

/-- The two-operand arithmetic pattern of `_add`/`_sub`/`_mul`
(post4.c:2148-2161): `w = P4_POP(ds); P4_TOP(ds).n op= w.n` — note the
absence of any stack check. -/
def binOp (m : P4Machine) (ip : Ptr) (f : Int → Int → Int) : Outcome :=
  let pr := m.ds.pop
  match pr.1.getInt, pr.2.topCell.getInt with
  | some a, some b => .cont { m with ds := pr.2.setTop (.int (f b a)) } ip
  | _, _ => .stuck

/-- Dispatch `goto *w.xt->code` with the current word register `w = wid`
and instruction pointer `ip`: the bodies of the primitive labels of
`p4Repl` (post4.c:1667-1928, 2123-2161). -/
def p4Execute (m : P4Machine) (wid : Nat) (ip : Ptr) : Outcome :=
  match (m.wordAt wid).code with
  | .enter =>                                   -- post4.c:1680-1684
    match rsCheck m 0 1 with
    | some c => .thrown c
    | none => .cont { m with rs := m.rs.push (.ptr ip) } (.word wid 0)
  | .exitc => doExit m                          -- post4.c:1687-1689
  | .lit =>                                     -- post4.c:1759-1761
    .cont { m with ds := m.ds.push (m.fetchCell ip) } (ipNext ip)
  | .data_field =>                              -- post4.c:1927-1928
    .cont { m with ds := m.ds.push (.ptr (.word wid 1)) } ip
  | .do_does =>                                 -- post4.c:1910-1916
    let m1 := { m with ds := m.ds.push (.ptr (.word wid 1)) }
    match rsCheck m1 0 1 with
    | some c => .thrown c
    | none =>
      let m2 := { m1 with rs := m1.rs.push (.ptr ip) }
      -- `w.xt->data[0].p`; the word register was loaded at dispatch and
      -- the pushes do not touch the store.
      match (m.wordAt wid).data.getD 0 default with
      | .ptr p => .cont m2 p
      | _ => .stuck
  | .add => binOp m ip (fun b a => b + a)       -- post4.c:2149-2151
  | .sub => binOp m ip (fun b a => b - a)       -- post4.c:2154-2156
  | .mul => binOp m ip (fun b a => b * a)       -- post4.c:2159-2161
  | .to_rs =>                                   -- post4.c:2124-2127
    let pr := m.ds.pop
    let m1 := { m with ds := pr.2 }
    match rsCheck m1 0 1 with
    | some c => .thrown c
    | none => .cont { m1 with rs := m1.rs.push pr.1 } ip
  | .from_rs =>                                 -- post4.c:2130-2133
    match rsCheck m 1 0 with
    | some c => .thrown c
    | none =>
      let pr := m.rs.pop
      .cont { m with rs := pr.2, ds := m.ds.push pr.1 } ip
  | .colon =>                                   -- post4.c:1790-1794
    if m.state = -1 then .thrown P4_THROW_COMPILING
    else
      let pn := p4ParseName m.input
      doColon { m with input := pn.2 } pn.1 ip
  | .noname => doColon m [] ip                  -- post4.c:1786-1788
  | .semicolon => doSemicolon m ip              -- post4.c:1805-1821
  | .create =>                                  -- post4.c:1888-1893
    let pn := p4ParseName m.input
    let m1 := { m with input := pn.2 }
    let m2 := p4WordCreateM m1 pn.1 .data_field
    let m3 := p4WordAppendM m2 (.int 0)
    let m4 := m3.updateWord m3.head fun w => { w with bits := w.bits ||| P4_BIT_CREATED }
    .cont m4 ip
  | .does =>                                    -- post4.c:1896-1907
    if (m.headWord.bits &&& P4_BIT_CREATED) ≠ P4_BIT_CREATED then
      .thrown P4_THROW_NOT_CREATED
    else
      let m1 := m.updateWord m.head fun w =>
        { w with code := .do_does, data := w.data.set 0 (.ptr ip) }
      doExit m1
  | .repl => .toRepl m                          -- post4.c:1606

/-- `_next` (post4.c:1669-1672): the `(0, 0)` data-stack bounds check,
then fetch `w = *ip++` and dispatch through `w.xt->code`. -/
def p4Next (m : P4Machine) (ip : Ptr) : Outcome :=
  match dsCheck m 0 0 with
  | some c => .thrown c
  | none =>
    match m.fetchCell ip with
    | .xt wid => p4Execute m wid (ipNext ip)
    | _ => .stuck

/-- The REPL's word execution (post4.c:1647-1650): place the xt in
`exec[0]`, point `ip` at `exec`, and enter the threaded loop. -/
def p4CallWord (m : P4Machine) (wid : Nat) : Outcome :=
  p4Next { m with execSlot := wid } (.exec 0)

/-- Projection used by closed statements: the throw code of an outcome. -/
def Outcome.thrownCode : Outcome → Option Int
  | .thrown c => some c
  | _ => none

/-- Projection used by closed statements: the machine of a `cont`. -/
def Outcome.contM : Outcome → Option P4Machine
  | .cont m _ => some m
  | _ => none

/-- Projection used by closed statements: the continuation ip of a `cont`. -/
def Outcome.contIp : Outcome → Option Ptr
  | .cont _ ip => some ip
  | _ => none

/-! ### Shared dictionary-store lemmas -/

theorem getD_set_self {α : Type} [Inhabited α] (l : List α) (i : Nat) (a : α)
    (h : i < l.length) : (l.set i a).getD i default = a := by
  induction l generalizing i with
  | nil => simp at h
  | cons x xs ih =>
    cases i with
    | zero => rfl
    | succ n =>
      simp only [List.set_cons_succ, List.getD_cons_succ]
      exact ih n (by simpa using h)

theorem getD_append_len {α : Type} [Inhabited α] (l : List α) (a : α) :
    (l ++ [a]).getD l.length default = a :=
  getD_append_length l a []

theorem updateWord_wordAt_self (m : P4Machine) (wid : Nat) (f : PWord → PWord)
    (h : wid < m.store.length) :
    (m.updateWord wid f).wordAt wid = f (m.wordAt wid) := by
  unfold P4Machine.updateWord P4Machine.wordAt
  exact getD_set_self _ _ _ (by simpa using h)

/-! ### Claim C4: stack depth checks -/

/-- Static words in their fixed store slots, followed by a single `+`
word, for concrete executions. -/
def c4m : P4Machine :=
  { ds := ⟨64, fun _ => .int 0, -1⟩
  , rs := ⟨64, fun _ => .int 0, -1⟩
  , state := 0
  , store := [⟨[76, 73, 84], 0, .lit, none, []⟩,
              ⟨[69, 88, 73, 84], 0, .exitc, none, []⟩,
              ⟨[95, 114, 101, 112, 108], 0, .repl, none, []⟩,
              ⟨[43], 0, .add, some 2, []⟩]
  , head := 3
  , input := ⟨[], 0⟩
  , execSlot := 0 }

/-- Claim C4 counterexample: executing `+` on an empty data stack does
NOT raise an underflow before the stack is mutated.  The pop arity of
`+` would take the depth from 0 to -1, yet the dispatch completes with
no throw and the depth already at -1; only the next `_next` bounds
check reports *stack underflow* (-4), one token later. -/
theorem claim_C4_counterexample :
    c4m.ds.length = 0
  ∧ (p4CallWord c4m 3).thrownCode = none
  ∧ ((p4CallWord c4m 3).contM.map fun m => m.ds.length) = some (-1)
  ∧ (match p4CallWord c4m 3 with
     | .cont m ip => (p4Next m ip).thrownCode
     | _ => none) = some P4_THROW_DS_UNDER := by
  refine ⟨rfl, rfl, rfl, rfl⟩

/-- Claim C4 as amended: `p4StackCanPopPush` raises the stack-specific
underflow code exactly when the depth is below the pop arity and the
overflow code exactly when the resulting depth would exceed the
capacity; the dispatch loop `_next` performs a `(0,0)` data-stack
bounds check before every token, so a depth outside `[0, size]` raises
the data-stack code before the next primitive runs; the return-stack
primitives (`enter`, `exit`, `>R`, `R>`) check their return-stack arity
with the return-stack codes before mutating it.  Simple data-stack
operators such as `+` perform no per-primitive check (see the
counterexample): their underflow is detected one dispatch later. -/
theorem claim_C4 :
    (∀ (s : Stk) (over under pop push : Int), over ≠ under →
        (p4StackCanPopPush s over under pop push = some under ↔ s.length < pop)
      ∧ (p4StackCanPopPush s over under pop push = some over
          ↔ (pop ≤ s.length ∧ (s.size : Int) < s.length + push - pop))
      ∧ (p4StackCanPopPush s over under pop push = none
          ↔ (pop ≤ s.length ∧ s.length + push - pop ≤ (s.size : Int))))
  ∧ (∀ (m : P4Machine) (ip : Ptr), m.ds.length < 0 →
      p4Next m ip = .thrown P4_THROW_DS_UNDER)
  ∧ (∀ (m : P4Machine) (ip : Ptr), 0 ≤ m.ds.length → (m.ds.size : Int) < m.ds.length →
      p4Next m ip = .thrown P4_THROW_DS_OVER)
  ∧ (∀ (m : P4Machine) (wid : Nat) (ip : Ptr), (m.wordAt wid).code = .enter →
      0 ≤ m.rs.length → (m.rs.size : Int) < m.rs.length + 1 →
      p4Execute m wid ip = .thrown P4_THROW_RS_OVER)
  ∧ (∀ (m : P4Machine) (wid : Nat) (ip : Ptr), (m.wordAt wid).code = .exitc →
      m.rs.length < 1 →
      p4Execute m wid ip = .thrown P4_THROW_RS_UNDER)
  ∧ (∀ (m : P4Machine) (wid : Nat) (ip : Ptr), (m.wordAt wid).code = .to_rs →
      0 ≤ m.rs.length → (m.rs.size : Int) < m.rs.length + 1 →
      p4Execute m wid ip = .thrown P4_THROW_RS_OVER)
  ∧ (∀ (m : P4Machine) (wid : Nat) (ip : Ptr), (m.wordAt wid).code = .from_rs →
      m.rs.length < 1 →
      p4Execute m wid ip = .thrown P4_THROW_RS_UNDER) := by
  refine ⟨?_, ?_, ?_, ?_, ?_, ?_, ?_⟩
  · intro s over under pop push hou
    by_cases h1 : s.length < pop
    · have hr : p4StackCanPopPush s over under pop push = some under := by
        unfold p4StackCanPopPush; rw [if_pos h1]
      refine ⟨by simp [hr, h1], ?_, ?_⟩
      · rw [hr]
        constructor
        · intro he; exact absurd (Option.some.inj he).symm hou
        · intro hp; omega
      · rw [hr]
        constructor
        · intro he; cases he
        · intro hp; omega
    · by_cases h2 : (s.size : Int) < s.length + push - pop
      · have hr : p4StackCanPopPush s over under pop push = some over := by
          unfold p4StackCanPopPush; rw [if_neg h1, if_pos h2]
        refine ⟨?_, by simp [hr]; omega, ?_⟩
        · rw [hr]
          constructor
          · intro he; exact absurd (Option.some.inj he) hou
          · intro hp; omega
        · rw [hr]
          constructor
          · intro he; cases he
          · intro hp; omega
      · have hr : p4StackCanPopPush s over under pop push = none := by
          unfold p4StackCanPopPush; rw [if_neg h1, if_neg h2]
        refine ⟨?_, ?_, by simp [hr]; omega⟩
        · rw [hr]
          constructor
          · intro he; cases he
          · intro hp; omega
        · rw [hr]
          constructor
          · intro he; cases he
          · intro hp; omega
  · intro m ip h
    unfold p4Next dsCheck p4StackCanPopPush
    rw [if_pos h]
  · intro m ip h0 hover
    unfold p4Next dsCheck p4StackCanPopPush
    rw [if_neg (by omega)]
    rw [if_pos (by omega)]
  · intro m wid ip hc h0 hover
    simp only [p4Execute, hc]
    unfold rsCheck p4StackCanPopPush
    rw [if_neg (by omega)]
    rw [if_pos (by omega)]
  · intro m wid ip hc hunder
    simp only [p4Execute, hc]
    unfold doExit rsCheck p4StackCanPopPush
    rw [if_pos hunder]
  · intro m wid ip hc h0 hover
    have hchk : rsCheck { m with ds := (m.ds.pop).2 } 0 1 = some P4_THROW_RS_OVER := by
      unfold rsCheck p4StackCanPopPush
      have e1 : ({ m with ds := (m.ds.pop).2 } : P4Machine).rs = m.rs := rfl
      rw [e1]
      rw [if_neg (by omega)]
      rw [if_pos (by omega)]
    simp only [p4Execute, hc, hchk]
  · intro m wid ip hc hunder
    simp only [p4Execute, hc]
    unfold rsCheck p4StackCanPopPush
    rw [if_pos hunder]

/-- Witness for the amended claim C4 at concrete stacks: a full return
stack makes `>R` raise -5 before pushing, an empty one makes `R>` raise
-6, and a machine whose data-stack depth is already -1 throws -4 at the
next dispatch. -/
theorem claim_C4_witness :
    (p4StackCanPopPush ⟨4, fun _ => Cell.int 0, -1⟩ (-3) (-4) 1 0 = some (-4)
      ↔ (⟨4, fun _ => Cell.int 0, -1⟩ : Stk).length < 1)
  ∧ p4Next { c4m with ds := ⟨64, fun _ => Cell.int 0, -2⟩ } (.exec 1)
      = .thrown P4_THROW_DS_UNDER
  ∧ p4Execute { c4m with store := c4m.store ++ [⟨[], 0, .to_rs, some 3, []⟩],
                         rs := ⟨64, fun _ => Cell.int 0, 63⟩ } 4 (.exec 1)
      = .thrown P4_THROW_RS_OVER
  ∧ p4Execute { c4m with store := c4m.store ++ [⟨[], 0, .from_rs, some 3, []⟩] } 4
      (.exec 1) = .thrown P4_THROW_RS_UNDER :=
  ⟨(claim_C4.1 ⟨4, fun _ => Cell.int 0, -1⟩ (-3) (-4) 1 0 (by decide)).1,
   claim_C4.2.1 _ _ (by decide),
   claim_C4.2.2.2.2.2.1 _ 4 _ (by rfl) (by decide) (by decide),
   claim_C4.2.2.2.2.2.2 _ 4 _ (by rfl) (by decide)⟩

/-! ### Claim C7: the REPL landing pad -/

/-- The context fields the landing pad touches. -/
structure ThrowCtx where
  ds : Stk
  rs : Stk
  fs : Stk
  state : Int

/-- The landing-pad switch of `p4Repl` (post4.c:1565-1601), with its
fallthroughs: the abort class resets the float and data stacks and
falls through to the return-stack reset; the quit class resets the
return stack only; every class falls through to
`ctx->state = P4_STATE_INTERPRET`. -/
def p4ReplCatch (rc : Int) (c : ThrowCtx) : ThrowCtx :=
  if rc = P4_THROW_ABORT ∨ rc = P4_THROW_ABORT_MSG
      ∨ rc = P4_THROW_DS_OVER ∨ rc = P4_THROW_DS_UNDER then
    { ds := c.ds.reset, rs := c.rs.reset, fs := c.fs.reset, state := 0 }
  else if rc = P4_THROW_QUIT ∨ rc = P4_THROW_SIGSEGV
      ∨ rc = P4_THROW_RS_OVER ∨ rc = P4_THROW_RS_UNDER
      ∨ rc = P4_THROW_UNDEFINED ∨ rc = P4_THROW_LOOP_DEPTH then
    { c with rs := c.rs.reset, state := 0 }
  else
    { c with state := 0 }

/-- Claim C7: when the landing pad catches a throw, the class
{abort, abort-msg, ds-overflow, ds-underflow} resets the data stack and
the float stack (to depth 0), and every caught code sets the state back
to interpret. -/
theorem claim_C7 (rc : Int) (c : ThrowCtx) (_hc : rc ≠ 0) :
    ((rc = P4_THROW_ABORT ∨ rc = P4_THROW_ABORT_MSG
        ∨ rc = P4_THROW_DS_OVER ∨ rc = P4_THROW_DS_UNDER) →
      (p4ReplCatch rc c).ds.length = 0 ∧ (p4ReplCatch rc c).fs.length = 0)
  ∧ (p4ReplCatch rc c).state = 0 := by
  constructor
  · intro hrc
    unfold p4ReplCatch
    rw [if_pos hrc]
    exact ⟨by simp [Stk.reset, Stk.length], by simp [Stk.reset, Stk.length]⟩
  · unfold p4ReplCatch
    split_ifs <;> rfl

/-- Witness for claim C7: an ABORT (-1) with non-empty stacks resets
the data and float stacks and re-enters interpret state. -/
theorem claim_C7_witness :
    (((-1 : Int) = P4_THROW_ABORT ∨ (-1 : Int) = P4_THROW_ABORT_MSG
        ∨ (-1 : Int) = P4_THROW_DS_OVER ∨ (-1 : Int) = P4_THROW_DS_UNDER) →
      (p4ReplCatch (-1) ⟨⟨64, fun _ => Cell.int 7, 5⟩, ⟨64, fun _ => Cell.int 7, 5⟩,
          ⟨6, fun _ => Cell.int 7, 2⟩, -1⟩).ds.length = 0
      ∧ (p4ReplCatch (-1) ⟨⟨64, fun _ => Cell.int 7, 5⟩, ⟨64, fun _ => Cell.int 7, 5⟩,
          ⟨6, fun _ => Cell.int 7, 2⟩, -1⟩).fs.length = 0)
  ∧ (p4ReplCatch (-1) ⟨⟨64, fun _ => Cell.int 7, 5⟩, ⟨64, fun _ => Cell.int 7, 5⟩,
      ⟨6, fun _ => Cell.int 7, 2⟩, -1⟩).state = 0 :=
  claim_C7 (-1) ⟨⟨64, fun _ => Cell.int 7, 5⟩, ⟨64, fun _ => Cell.int 7, 5⟩,
    ⟨6, fun _ => Cell.int 7, 2⟩, -1⟩ (by decide)

/-! ### Stack computation lemmas -/

theorem Stk.pop_eq (s : Stk) : s.pop = (s.topCell, { s with top := s.top - 1 }) := rfl

theorem Stk.topCell_push (s : Stk) (c : Cell) : (s.push c).topCell = c := by
  simp [Stk.push, Stk.topCell]

theorem Stk.length_push (s : Stk) (c : Cell) : (s.push c).length = s.length + 1 := rfl

theorem Stk.length_pop (s : Stk) : (s.pop).2.length = s.length - 1 := by
  show s.top - 1 + 1 = s.top + 1 - 1
  omega

/-! ### Claim C10: the 8-bit truncation of the control sentinel -/

/-- Claim C10: the `(char)` casts in `_do_colon`/`_semicolon` truncate
each depth to 8 bits, so the packed sentinel depends on the depths only
modulo 256; consequently, at `;` a control imbalance that changed each
depth by an exact multiple of 256 produces an equal packed value and no
*bad-control* throw. -/
theorem claim_C10 :
    (∀ rsLen dsLen : Int, packDepths rsLen dsLen = packDepths (rsLen % 256) (dsLen % 256))
  ∧ (∀ r1 d1 r2 d2 : Int, r1 % 256 = r2 % 256 → d1 % 256 = d2 % 256 →
      packDepths r1 d1 = packDepths r2 d2)
  ∧ (∀ (m : P4Machine) (wid : Nat) (ip : Ptr) (r d k j : Int),
      (m.wordAt wid).code = .semicolon →
      m.rs.length = r + 256 * k →
      (m.ds.pop).2.length = d + 256 * j →
      m.ds.topCell = .int (packDepths r d) →
      p4Execute m wid ip ≠ .thrown P4_THROW_BAD_CONTROL) := by
  refine ⟨?_, ?_, ?_⟩
  · intro rsLen dsLen
    unfold packDepths byteOf
    rw [show rsLen % 256 % 256 = rsLen % 256 by omega]
    rw [show dsLen % 256 % 256 = dsLen % 256 by omega]
  · intro r1 d1 r2 d2 h1 h2
    unfold packDepths byteOf
    rw [h1, h2]
  · intro m wid ip r d k j hc hrs hds htop hcontra
    simp only [p4Execute, hc] at hcontra
    unfold doSemicolon at hcontra
    rw [Stk.pop_eq, htop] at hcontra
    simp only at hcontra
    have hx : packDepths m.rs.length ({ m.ds with top := m.ds.top - 1 } : Stk).length
        = packDepths r d := by
      have e2 : ({ m.ds with top := m.ds.top - 1 } : Stk).length = d + 256 * j := by
        rw [show ({ m.ds with top := m.ds.top - 1 } : Stk).length = (m.ds.pop).2.length from rfl]
        exact hds
      rw [hrs, e2]
      unfold packDepths byteOf
      rw [show (r + 256 * k) % 256 = r % 256 by omega]
      rw [show (d + 256 * j) % 256 = d % 256 by omega]
    rw [hx] at hcontra
    have hni : ¬((↑(packDepths r d) : Int) ≠ ↑(packDepths r d)) := by simp
    rw [if_neg hni] at hcontra
    split at hcontra <;> exact absurd hcontra (by simp)

/-- Witness for claim C10: a sentinel recorded at depths (0, 0) is
compared equal at `;` although the return-stack depth is then 256: the
imbalance of exactly 256 return-stack entries goes undetected. -/
theorem claim_C10_witness :
    packDepths 300 77 = packDepths (300 % 256) (77 % 256)
  ∧ packDepths 256 0 = packDepths 0 0
  ∧ p4Execute
      { ds := ⟨64, fun _ => .int (packDepths 0 0), 0⟩
      , rs := ⟨64, fun _ => .int 0, 255⟩
      , state := -1
      , store := [⟨[76, 73, 84], 0, .lit, none, []⟩,
                  ⟨[69, 88, 73, 84], 0, .exitc, none, []⟩,
                  ⟨[95, 114, 101, 112, 108], 0, .repl, none, []⟩,
                  ⟨[59], 1, .semicolon, some 2, []⟩]
      , head := 3, input := ⟨[], 0⟩, execSlot := 0 } 3 (.exec 1)
      ≠ .thrown P4_THROW_BAD_CONTROL :=
  ⟨claim_C10.1 300 77,
   claim_C10.2.1 256 0 0 0 (by decide) (by decide),
   claim_C10.2.2
     { ds := ⟨64, fun _ => .int (packDepths 0 0), 0⟩
     , rs := ⟨64, fun _ => .int 0, 255⟩
     , state := -1
     , store := [⟨[76, 73, 84], 0, .lit, none, []⟩,
                 ⟨[69, 88, 73, 84], 0, .exitc, none, []⟩,
                 ⟨[95, 114, 101, 112, 108], 0, .repl, none, []⟩,
                 ⟨[59], 1, .semicolon, some 2, []⟩]
     , head := 3, input := ⟨[], 0⟩, execSlot := 0 } 3 (.exec 1) 0 0 1 0
     (by rfl) (by rfl) (by rfl) (by rfl)⟩

/-! ### Word-store reduction lemmas -/

theorem updateWord_headWord (m : P4Machine) (f : PWord → PWord)
    (h : m.head < m.store.length) :
    (m.updateWord m.head f).headWord = f m.headWord := by
  unfold P4Machine.headWord
  have e : (m.updateWord m.head f).head = m.head := rfl
  rw [e]
  exact updateWord_wordAt_self m m.head f h

theorem createM_headWord (mx : P4Machine) (name : List Nat) (code : PCode) :
    (p4WordCreateM mx name code).headWord = ⟨name, 0, code, some mx.head, []⟩ := by
  unfold p4WordCreateM P4Machine.headWord P4Machine.wordAt
  exact getD_append_len _ _

theorem createM_head_lt (mx : P4Machine) (name : List Nat) (code : PCode) :
    (p4WordCreateM mx name code).head < (p4WordCreateM mx name code).store.length := by
  simp [p4WordCreateM]

theorem appendM_headWord (mx : P4Machine) (c : Cell) (h : mx.head < mx.store.length) :
    (p4WordAppendM mx c).headWord = { mx.headWord with data := mx.headWord.data ++ [c] } := by
  unfold p4WordAppendM
  exact updateWord_headWord _ _ h

theorem appendM_head_lt (mx : P4Machine) (c : Cell) (h : mx.head < mx.store.length) :
    (p4WordAppendM mx c).head < (p4WordAppendM mx c).store.length := by
  simpa [p4WordAppendM, P4Machine.updateWord] using h

/-- `_exit` on a return stack holding a saved ip on top: pop it into the
instruction pointer. -/
theorem doExit_pop (mm : P4Machine) (p : Ptr) (h1 : 1 ≤ mm.rs.length)
    (hsz : mm.rs.length - 1 ≤ (mm.rs.size : Int)) (htop : mm.rs.topCell = .ptr p) :
    doExit mm = .cont { mm with rs := { mm.rs with top := mm.rs.top - 1 } } p := by
  unfold doExit rsCheck p4StackCanPopPush
  rw [if_neg (by omega), if_neg (by omega)]
  rw [Stk.pop_eq, htop]

/-! ### Claim C1: CREATE / DOES> -/

/-- The word record produced by the `_create` sequence: create with code
handle `data_field`, append one zero cell, set CREATED. -/
theorem doCreate_headWord (m1 : P4Machine) (name : List Nat) :
    ((p4WordAppendM (p4WordCreateM m1 name .data_field) (.int 0)).updateWord
        (p4WordAppendM (p4WordCreateM m1 name .data_field) (.int 0)).head
        fun w => { w with bits := w.bits ||| P4_BIT_CREATED }).headWord
      = ⟨name, P4_BIT_CREATED, .data_field, some m1.head, [Cell.int 0]⟩ := by
  rw [updateWord_headWord _ _ (appendM_head_lt _ _ (createM_head_lt _ _ _))]
  rw [appendM_headWord _ _ (createM_head_lt _ _ _)]
  rw [createM_headWord]
  simp

/-- Claim C1: a word X defined by CREATE has code handle `data_field`,
one zero cell as `data[0]` (the reserved DOES> slot) and the CREATED
bit; executing X pushes the address of `data[1]`; DOES> (run during the
defining word's execution on a CREATED head word) retargets X's code
handle to `do_does`, stores the current ip into `data[0]`, and returns
via `exit`; executing X afterwards pushes the address of `data[1]`,
saves the current ip on the return stack, and continues execution at
the continuation stored in `data[0]`. -/
theorem claim_C1 :
    (∀ (m : P4Machine) (wid : Nat) (ip : Ptr), (m.wordAt wid).code = .create →
      ∃ m', p4Execute m wid ip = .cont m' ip
        ∧ m'.head = m.store.length
        ∧ m'.headWord.code = .data_field
        ∧ m'.headWord.data = [Cell.int 0]
        ∧ m'.headWord.bits &&& P4_BIT_CREATED = P4_BIT_CREATED
        ∧ m'.headWord.name = (p4ParseName m.input).1
        ∧ m'.headWord.prev = some m.head
        ∧ m'.ds = m.ds ∧ m'.rs = m.rs ∧ m'.state = m.state)
  ∧ (∀ (m : P4Machine) (wid : Nat) (ip : Ptr), (m.wordAt wid).code = .data_field →
      p4Execute m wid ip = .cont { m with ds := m.ds.push (.ptr (.word wid 1)) } ip)
  ∧ (∀ (m : P4Machine) (wid : Nat) (ip : Ptr) (p : Ptr),
      (m.wordAt wid).code = .does →
      m.headWord.bits &&& P4_BIT_CREATED = P4_BIT_CREATED →
      m.head < m.store.length →
      1 ≤ m.rs.length →
      m.rs.length ≤ (m.rs.size : Int) →
      m.rs.topCell = .ptr p →
      ∃ m', p4Execute m wid ip = .cont m' p
        ∧ m'.headWord.code = .do_does
        ∧ m'.headWord.data = m.headWord.data.set 0 (.ptr ip)
        ∧ m'.rs.length = m.rs.length - 1
        ∧ m'.ds = m.ds)
  ∧ (∀ (m : P4Machine) (wid : Nat) (ip : Ptr) (p : Ptr),
      (m.wordAt wid).code = .do_does →
      (m.wordAt wid).data.getD 0 default = .ptr p →
      0 ≤ m.rs.length →
      m.rs.length + 1 ≤ (m.rs.size : Int) →
      ∃ m', p4Execute m wid ip = .cont m' p
        ∧ m'.ds.topCell = .ptr (.word wid 1)
        ∧ m'.ds.length = m.ds.length + 1
        ∧ m'.rs.topCell = .ptr ip
        ∧ m'.rs.length = m.rs.length + 1) := by
  refine ⟨?_, ?_, ?_, ?_⟩
  · intro m wid ip hc
    simp only [p4Execute, hc]
    refine ⟨_, rfl, rfl, ?_, ?_, ?_, ?_, ?_, rfl, rfl, rfl⟩
    · rw [doCreate_headWord]
    · rw [doCreate_headWord]
    · rw [doCreate_headWord]; simp [P4_BIT_CREATED]
    · rw [doCreate_headWord]
    · rw [doCreate_headWord]
  · intro m wid ip hc
    simp only [p4Execute, hc]
  · intro m wid ip p hc hcr hlt h1 hsz htop
    simp only [p4Execute, hc]
    rw [if_neg (by simp [hcr])]
    have hsz' : m.rs.length - 1 ≤ (m.rs.size : Int) := by omega
    have hW := updateWord_headWord m
      (fun w => { w with code := PCode.do_does, data := w.data.set 0 (Cell.ptr ip) }) hlt
    refine ⟨_, doExit_pop _ p h1 hsz' htop, ?_, ?_, ?_, rfl⟩
    · show ((m.updateWord m.head fun w => { w with code := PCode.do_does, data := w.data.set 0 (Cell.ptr ip) }).headWord).code = PCode.do_does
      rw [hW]
    · show ((m.updateWord m.head fun w => { w with code := PCode.do_does, data := w.data.set 0 (Cell.ptr ip) }).headWord).data = m.headWord.data.set 0 (Cell.ptr ip)
      rw [hW]
    · show m.rs.top - 1 + 1 = m.rs.top + 1 - 1
      omega
  · intro m wid ip p hc hdata h0 hsz
    simp only [p4Execute, hc]
    have hchk : rsCheck { m with ds := m.ds.push (.ptr (.word wid 1)) } 0 1 = none := by
      unfold rsCheck p4StackCanPopPush
      have e1 : ({ m with ds := m.ds.push (.ptr (.word wid 1)) } : P4Machine).rs = m.rs :=
        rfl
      rw [e1]
      rw [if_neg (by omega), if_neg (by omega)]
    rw [hchk, hdata]
    refine ⟨_, rfl, ?_, ?_, ?_, ?_⟩
    · exact Stk.topCell_push _ _
    · exact Stk.length_push _ _
    · exact Stk.topCell_push _ _
    · exact Stk.length_push _ _

/-- Concrete machine about to run `CREATE X`: static words, the CREATE
builtin at slot 3 as dictionary head, input holding the name `X`. -/
def c1mCreate : P4Machine :=
  { ds := ⟨64, fun _ => .int 0, -1⟩
  , rs := ⟨64, fun _ => .int 0, -1⟩
  , state := 0
  , store := [⟨[76, 73, 84], 0, .lit, none, []⟩,
              ⟨[69, 88, 73, 84], 0, .exitc, none, []⟩,
              ⟨[95, 114, 101, 112, 108], 0, .repl, none, []⟩,
              ⟨[67, 82, 69, 65, 84, 69], 0, .create, some 2, []⟩]
  , head := 3
  , input := ⟨[88], 0⟩
  , execSlot := 0 }

/-- The freshly CREATEd word `X` as dictionary head. -/
def c1mField : P4Machine :=
  { c1mCreate with store := c1mCreate.store ++ [⟨[88], 2, .data_field, some 3, [.int 0]⟩],
                   head := 4 }

/-- About to run DOES> with the CREATEd `X` as head; the return stack
holds the defining word's caller. -/
def c1mDoes : P4Machine :=
  { c1mField with store := c1mField.store ++ [⟨[68, 79, 69, 83, 62], 8, .does, some 4, []⟩],
                  rs := ⟨64, fun _ => .ptr (.exec 1), 0⟩ }

/-- `X` after DOES> retargeted it to `do_does` with a stored
continuation. -/
def c1mDodoes : P4Machine :=
  { c1mCreate with store := c1mCreate.store ++ [⟨[88], 2, .do_does, some 3, [.ptr (.word 4 2)]⟩],
                   head := 4 }

/-- Witness for claim C1: the CREATE/DOES>/data_field/do_does behaviours
at the concrete machines above. -/
theorem claim_C1_witness :
    (∃ m', p4Execute c1mCreate 3 (.exec 1) = .cont m' (.exec 1)
      ∧ m'.head = c1mCreate.store.length
      ∧ m'.headWord.code = .data_field
      ∧ m'.headWord.data = [Cell.int 0]
      ∧ m'.headWord.bits &&& P4_BIT_CREATED = P4_BIT_CREATED
      ∧ m'.headWord.name = (p4ParseName c1mCreate.input).1
      ∧ m'.headWord.prev = some c1mCreate.head
      ∧ m'.ds = c1mCreate.ds ∧ m'.rs = c1mCreate.rs ∧ m'.state = c1mCreate.state)
  ∧ p4Execute c1mField 4 (.exec 1)
      = .cont { c1mField with ds := c1mField.ds.push (.ptr (.word 4 1)) } (.exec 1)
  ∧ (∃ m', p4Execute c1mDoes 5 (.word 9 7) = .cont m' (.exec 1)
      ∧ m'.headWord.code = .do_does
      ∧ m'.headWord.data = c1mDoes.headWord.data.set 0 (.ptr (.word 9 7))
      ∧ m'.rs.length = c1mDoes.rs.length - 1
      ∧ m'.ds = c1mDoes.ds)
  ∧ (∃ m', p4Execute c1mDodoes 4 (.word 9 7) = .cont m' (.word 4 2)
      ∧ m'.ds.topCell = .ptr (.word 4 1)
      ∧ m'.ds.length = c1mDodoes.ds.length + 1
      ∧ m'.rs.topCell = .ptr (.word 9 7)
      ∧ m'.rs.length = c1mDodoes.rs.length + 1) :=
  ⟨claim_C1.1 c1mCreate 3 (.exec 1) rfl,
   claim_C1.2.1 c1mField 4 (.exec 1) rfl,
   claim_C1.2.2.1 c1mDoes 5 (.word 9 7) (.exec 1) rfl rfl (by decide) (by decide)
     (by decide) rfl,
   claim_C1.2.2.2 c1mDodoes 4 (.word 9 7) (.word 4 2) rfl rfl (by decide) (by decide)⟩

/-! ### Claim C2: `:` and `;` -/

/-- What `_do_colon` produces: the packed sentinel on the data stack,
compile state, and a fresh hidden `enter` word as head. -/
theorem doColon_spec (m : P4Machine) (name : List Nat) (ip : Ptr) :
    ∃ m', doColon m name ip = .cont m' ip
      ∧ m'.ds.topCell = .int (packDepths m.rs.length m.ds.length)
      ∧ m'.ds.length = m.ds.length + 1
      ∧ m'.rs = m.rs
      ∧ m'.state = -1
      ∧ m'.head = m.store.length
      ∧ m'.headWord = ⟨name, P4_BIT_HIDDEN, .enter, some m.head, []⟩ := by
  unfold doColon
  refine ⟨_, rfl, ?_, ?_, rfl, rfl, rfl, ?_⟩
  · exact Stk.topCell_push _ _
  · exact Stk.length_push _ _
  · rw [updateWord_headWord _ _ (createM_head_lt _ _ _), createM_headWord]
    simp

/-- `_semicolon` raises *bad-control* exactly when the popped sentinel
differs from the recomputed packed depths. -/
theorem doSemicolon_throw_iff (m : P4Machine) (ip : Ptr) (v : Int)
    (htop : m.ds.topCell = .int v) :
    (doSemicolon m ip = .thrown P4_THROW_BAD_CONTROL
      ↔ v ≠ (packDepths m.rs.length (m.ds.length - 1) : Int)) := by
  unfold doSemicolon
  rw [Stk.pop_eq, htop]
  simp only
  have hlen : ({ m.ds with top := m.ds.top - 1 } : Stk).length = m.ds.length - 1 := by
    show m.ds.top - 1 + 1 = m.ds.top + 1 - 1
    omega
  rw [hlen]
  by_cases hv : v = (packDepths m.rs.length (m.ds.length - 1) : Int)
  · rw [if_neg (by simp [hv])]
    constructor
    · intro he
      split at he <;> exact absurd he (by simp)
    · intro hne
      exact absurd hv hne
  · rw [if_pos hv]
    simp [hv]

/-- The happy path of `_semicolon`: append `exit`, clear HIDDEN, return
to interpret state, push the xt for `:NONAME`. -/
theorem doSemicolon_ok (m : P4Machine) (ip : Ptr)
    (htop : m.ds.topCell = .int (packDepths m.rs.length (m.ds.length - 1)))
    (hlt : m.head < m.store.length) :
    ∃ m', doSemicolon m ip = .cont m' ip
      ∧ m'.headWord.data = m.headWord.data ++ [Cell.xt WID_EXIT]
      ∧ m'.headWord.bits &&& P4_BIT_HIDDEN = 0
      ∧ m'.headWord.name = m.headWord.name
      ∧ m'.state = 0
      ∧ m'.head = m.head
      ∧ (m.headWord.name = [] → m'.ds.topCell = .xt m.head ∧ m'.ds.length = m.ds.length)
      ∧ (m.headWord.name ≠ [] → m'.ds.length = m.ds.length - 1) := by
  unfold doSemicolon
  rw [Stk.pop_eq, htop]
  simp only
  have hlen : ({ m.ds with top := m.ds.top - 1 } : Stk).length = m.ds.length - 1 := by
    show m.ds.top - 1 + 1 = m.ds.top + 1 - 1
    omega
  rw [hlen]
  rw [if_neg (by simp)]
  set M1 : P4Machine := { m with ds := { m.ds with top := m.ds.top - 1 } } with hM1
  set M2 : P4Machine := p4WordAppendM M1 (Cell.xt WID_EXIT) with hM2
  set M3 : P4Machine := M2.updateWord M2.head
    (fun w => { w with bits := w.bits &&& (0xFFFFFFFFFFFFFFFF - P4_BIT_HIDDEN) }) with hM3
  have e1 : M1.headWord = m.headWord := rfl
  have hW2 : M2.headWord = { M1.headWord with data := M1.headWord.data ++ [Cell.xt WID_EXIT] } :=
    appendM_headWord M1 (Cell.xt WID_EXIT) hlt
  have hlt2 : M2.head < M2.store.length := appendM_head_lt M1 (Cell.xt WID_EXIT) hlt
  have hW3 : M3.headWord
      = { m.headWord with bits := m.headWord.bits &&& (0xFFFFFFFFFFFFFFFF - P4_BIT_HIDDEN), data := m.headWord.data ++ [Cell.xt WID_EXIT] } := by
    rw [hM3, updateWord_headWord M2 _ hlt2, hW2, e1]
  have hbits : M3.headWord.bits &&& P4_BIT_HIDDEN = 0 := by
    rw [hW3]
    show (m.headWord.bits &&& (0xFFFFFFFFFFFFFFFF - P4_BIT_HIDDEN)) &&& P4_BIT_HIDDEN = 0
    rw [Nat.and_assoc]
    rw [show ((0xFFFFFFFFFFFFFFFF - P4_BIT_HIDDEN) &&& P4_BIT_HIDDEN) = 0 from rfl]
    exact Nat.and_zero _
  have hname4 : ({ M3 with state := (0 : Int) } : P4Machine).headWord.name
      = m.headWord.name := by
    show M3.headWord.name = m.headWord.name
    rw [hW3]
  by_cases hname : m.headWord.name = []
  · rw [if_pos (by rw [hname4]; exact hname)]
    refine ⟨_, rfl, ?_, hbits, ?_, rfl, rfl, fun _ => ⟨?_, ?_⟩, fun hne => absurd hname hne⟩
    · show M3.headWord.data = m.headWord.data ++ [Cell.xt WID_EXIT]
      rw [hW3]
    · show M3.headWord.name = m.headWord.name
      rw [hW3]
    · exact Stk.topCell_push _ _
    · show (({ m.ds with top := m.ds.top - 1 } : Stk).push (Cell.xt M3.head)).length
        = m.ds.length
      rw [Stk.length_push, hlen]
      omega
  · rw [if_neg (by rw [hname4]; exact hname)]
    refine ⟨_, rfl, ?_, hbits, ?_, rfl, rfl, fun he => absurd he hname, fun _ => ?_⟩
    · show M3.headWord.data = m.headWord.data ++ [Cell.xt WID_EXIT]
      rw [hW3]
    · show M3.headWord.name = m.headWord.name
      rw [hW3]
    · show ({ m.ds with top := m.ds.top - 1 } : Stk).length = m.ds.length - 1
      exact hlen

/-- Claim C2: `:` pushes a control sentinel packing the current
return-stack and data-stack depths into one cell (entering compile
state with a fresh hidden `enter` word); `;` pops the sentinel,
recomputes the packed depths, and raises *bad-control* exactly when the
two packed values differ; when they are equal it appends an `exit`
token, clears HIDDEN on the head word, resets the state to interpret,
and pushes the new word's execution token when the name is empty
(`:NONAME`). -/
theorem claim_C2 :
    (∀ (m : P4Machine) (wid : Nat) (ip : Ptr),
      (m.wordAt wid).code = .colon → m.state ≠ -1 →
      ∃ m', p4Execute m wid ip = .cont m' ip
        ∧ m'.ds.topCell = .int (packDepths m.rs.length m.ds.length)
        ∧ m'.ds.length = m.ds.length + 1
        ∧ m'.state = -1
        ∧ m'.headWord.code = .enter
        ∧ m'.headWord.bits &&& P4_BIT_HIDDEN = P4_BIT_HIDDEN
        ∧ m'.headWord.name = (p4ParseName m.input).1)
  ∧ (∀ (m : P4Machine) (wid : Nat) (ip : Ptr) (v : Int),
      (m.wordAt wid).code = .semicolon → m.ds.topCell = .int v →
      (p4Execute m wid ip = .thrown P4_THROW_BAD_CONTROL
        ↔ v ≠ (packDepths m.rs.length (m.ds.length - 1) : Int)))
  ∧ (∀ (m : P4Machine) (wid : Nat) (ip : Ptr),
      (m.wordAt wid).code = .semicolon →
      m.ds.topCell = .int (packDepths m.rs.length (m.ds.length - 1)) →
      m.head < m.store.length →
      ∃ m', p4Execute m wid ip = .cont m' ip
        ∧ m'.headWord.data = m.headWord.data ++ [Cell.xt WID_EXIT]
        ∧ m'.headWord.bits &&& P4_BIT_HIDDEN = 0
        ∧ m'.state = 0
        ∧ (m.headWord.name = [] → m'.ds.topCell = .xt m.head ∧ m'.ds.length = m.ds.length)
        ∧ (m.headWord.name ≠ [] → m'.ds.length = m.ds.length - 1)) := by
  refine ⟨?_, ?_, ?_⟩
  · intro m wid ip hc hst
    simp only [p4Execute, hc]
    rw [if_neg hst]
    obtain ⟨m', he, h1, h2, h3, h4, h5, h6⟩ :=
      doColon_spec { m with input := (p4ParseName m.input).2 } (p4ParseName m.input).1 ip
    refine ⟨m', he, h1, h2, h4, ?_, ?_, ?_⟩
    · rw [h6]
    · rw [h6]; simp [P4_BIT_HIDDEN]
    · rw [h6]
  · intro m wid ip v hc htop
    simp only [p4Execute, hc]
    exact doSemicolon_throw_iff m ip v htop
  · intro m wid ip hc htop hlt
    simp only [p4Execute, hc]
    obtain ⟨m', he, h1, h2, h3, h4, h5, h6, h7⟩ := doSemicolon_ok m ip htop hlt
    exact ⟨m', he, h1, h2, h4, h6, h7⟩

/-- Concrete machine about to run `:` in interpret state with input
`SQ`. -/
def c2mColon : P4Machine :=
  { ds := ⟨64, fun _ => .int 0, -1⟩
  , rs := ⟨64, fun _ => .int 0, -1⟩
  , state := 0
  , store := [⟨[76, 73, 84], 0, .lit, none, []⟩,
              ⟨[69, 88, 73, 84], 0, .exitc, none, []⟩,
              ⟨[95, 114, 101, 112, 108], 0, .repl, none, []⟩,
              ⟨[58], 0, .colon, some 2, []⟩]
  , head := 3
  , input := ⟨[83, 81], 0⟩
  , execSlot := 0 }

/-- Concrete machine about to run `;`: a hidden definition `SQ` as head
and the sentinel (packed at depths (0,0)) on top of the data stack. -/
def c2mSemi : P4Machine :=
  { ds := ⟨64, fun _ => .int (packDepths 0 0), 0⟩
  , rs := ⟨64, fun _ => .int 0, -1⟩
  , state := -1
  , store := [⟨[76, 73, 84], 0, .lit, none, []⟩,
              ⟨[69, 88, 73, 84], 0, .exitc, none, []⟩,
              ⟨[95, 114, 101, 112, 108], 0, .repl, none, []⟩,
              ⟨[83, 81], 4, .enter, some 2, []⟩,
              ⟨[59], 9, .semicolon, some 3, []⟩]
  , head := 3
  , input := ⟨[], 0⟩
  , execSlot := 0 }

/-- Witness for claim C2 at the concrete machines above. -/
theorem claim_C2_witness :
    (∃ m', p4Execute c2mColon 3 (.exec 1) = .cont m' (.exec 1)
      ∧ m'.ds.topCell = .int (packDepths c2mColon.rs.length c2mColon.ds.length)
      ∧ m'.ds.length = c2mColon.ds.length + 1
      ∧ m'.state = -1
      ∧ m'.headWord.code = .enter
      ∧ m'.headWord.bits &&& P4_BIT_HIDDEN = P4_BIT_HIDDEN
      ∧ m'.headWord.name = (p4ParseName c2mColon.input).1)
  ∧ (p4Execute c2mSemi 4 (.exec 1) = .thrown P4_THROW_BAD_CONTROL
      ↔ ((packDepths 0 0 : Nat) : Int)
          ≠ (packDepths c2mSemi.rs.length (c2mSemi.ds.length - 1) : Int))
  ∧ (∃ m', p4Execute c2mSemi 4 (.exec 1) = .cont m' (.exec 1)
      ∧ m'.headWord.data = c2mSemi.headWord.data ++ [Cell.xt WID_EXIT]
      ∧ m'.headWord.bits &&& P4_BIT_HIDDEN = 0
      ∧ m'.state = 0
      ∧ (c2mSemi.headWord.name = [] →
          m'.ds.topCell = .xt c2mSemi.head ∧ m'.ds.length = c2mSemi.ds.length)
      ∧ (c2mSemi.headWord.name ≠ [] → m'.ds.length = c2mSemi.ds.length - 1)) :=
  ⟨claim_C2.1 c2mColon 3 (.exec 1) rfl (by decide),
   claim_C2.2.1 c2mSemi 4 (.exec 1) ((packDepths 0 0 : Nat) : Int) rfl rfl,
   claim_C2.2.2 c2mSemi 4 (.exec 1) rfl (by decide) (by decide)⟩

end Post4
